import Mathlib

set_option maxRecDepth 8000

/-!
Verification of the `calc_score` scoring function
(`src/mechanical_refactor_score/repository_before/app/score.py`) and of the
`divide` helper
(`src/add_unit_test_to_division_code/repository_after/mathoperation/division.py`).

Modelling conventions for Python semantics:
* A Python `float` is modelled by `PFloat`: an exact rational finite part plus
  the IEEE special values `inf`, `-inf` and `NaN`.  Arithmetic on finite
  values is exact (binary rounding error is abstracted away), while the IEEE
  special-value rules (`inf * 0 = NaN`, `inf - inf = NaN`, NaN propagation)
  and overflow to an infinity are modelled: a finite result of magnitude at
  least `2 ^ 1024` overflows to the correspondingly signed infinity, exactly
  as a double rounds to an infinity there.  Negative zero, underflow and
  denormals are not distinguished.
* Python exceptions are modelled with `Except PyErr`; a bare `except:` is the
  total handler `pyTry`.
* Python values that may appear in the event / user records are modelled by
  `PyVal`: `None`, `int`, `float`, `str`, an arbitrary object whose `str()`
  succeeds, and an arbitrary object whose `str()` itself raises.
* `float(str)` / `int(str)` are modelled faithfully for ASCII decimal
  literals, signs, exponents and the `inf` / `infinity` / `nan` forms with
  surrounding whitespace; numeric-literal underscores and non-ASCII digits
  are not modelled.
-/

namespace Score

/-!
Rational arithmetic kernel.  The `Rat` operations of the ambient library are
deliberately irreducible, which blocks evaluation of the model inside
proofs; the model therefore computes with the reducible primitives `mkRat`,
`Rat.divInt` and `Rat.floor`, via the wrappers below.  Each wrapper is
proved equal to the corresponding ordinary field operation, so theorems can
freely move between the two presentations.
-/

/-- exact rational addition -/
def qadd (a b : ℚ) : ℚ := mkRat (a.num * b.den + b.num * a.den) (a.den * b.den)

/-- exact rational multiplication -/
def qmul (a b : ℚ) : ℚ := mkRat (a.num * b.num) (a.den * b.den)

/-- exact rational subtraction -/
def qsub (a b : ℚ) : ℚ := mkRat (a.num * b.den - b.num * a.den) (a.den * b.den)

/-- exact rational division (0 on a zero denominator, as `/` is) -/
def qdiv (a b : ℚ) : ℚ := Rat.divInt (a.num * (b.den : ℤ)) (b.num * (a.den : ℤ))

/-- absolute value -/
def qabs (q : ℚ) : ℚ := if q < 0 then -q else q

/-- decidable equality of `Except` results, for evaluating the model on
concrete inputs -/
instance exceptDecEq {ε α : Type} [DecidableEq ε] [DecidableEq α] :
    DecidableEq (Except ε α) := fun x y =>
  match x, y with
  | .ok a, .ok b =>
    if h : a = b then .isTrue (by rw [h]) else .isFalse (fun hc => h (by cases hc; rfl))
  | .error a, .error b =>
    if h : a = b then .isTrue (by rw [h]) else .isFalse (fun hc => h (by cases hc; rfl))
  | .ok _, .error _ => .isFalse (fun hc => by cases hc)
  | .error _, .ok _ => .isFalse (fun hc => by cases hc)

/-- Python exception kinds relevant to the modelled code.  The scoring code
catches everything with a bare `except:`, so only the distinction between
"some exception" and "no exception" matters there; `divide` distinguishes
kinds. -/
inductive PyErr where
  | typeError
  | valueError
  | overflowError
  | zeroDivisionError
  | invalidOperation
  /-- `decimal.Overflow`, distinct from the built-in `OverflowError` -/
  | decimalOverflow
deriving DecidableEq, Repr

/-- A Python float: exact rational finite part, or an IEEE special value. -/
inductive PFloat where
  | finite (q : ℚ)
  | inf
  | neginf
  | nan
deriving DecidableEq, Repr

/-- Overflow threshold of IEEE double precision: a real result of magnitude
at least `2 ^ 1024` rounds to an infinity. -/
def fmax : ℚ := ((2 ^ 1024 : ℕ) : ℚ)

/-- Clamp an exact rational result of a float operation to the representable
range, overflowing to a signed infinity as IEEE arithmetic does. -/
def pfOfRat (q : ℚ) : PFloat :=
  if fmax ≤ qabs q then (if 0 < q then .inf else .neginf) else .finite q

/-- IEEE negation. -/
def PFloat.neg : PFloat → PFloat
  | .finite q => .finite (-q)
  | .inf => .neginf
  | .neginf => .inf
  | .nan => .nan

/-- IEEE addition on the model: NaN propagates, `inf + (-inf) = NaN`,
finite addition is exact with overflow to an infinity. -/
def PFloat.add : PFloat → PFloat → PFloat
  | .nan, _ => .nan
  | _, .nan => .nan
  | .inf, .neginf => .nan
  | .neginf, .inf => .nan
  | .inf, _ => .inf
  | _, .inf => .inf
  | .neginf, _ => .neginf
  | _, .neginf => .neginf
  | .finite a, .finite b => pfOfRat (qadd a b)

/-- IEEE multiplication on the model: NaN propagates, `inf * 0 = NaN`,
signed infinity rules, finite multiplication exact with overflow. -/
def PFloat.mul : PFloat → PFloat → PFloat
  | .nan, _ => .nan
  | _, .nan => .nan
  | .finite a, .finite b => pfOfRat (qmul a b)
  | .inf, .finite b => if b = 0 then .nan else if 0 < b then .inf else .neginf
  | .finite a, .inf => if a = 0 then .nan else if 0 < a then .inf else .neginf
  | .neginf, .finite b => if b = 0 then .nan else if 0 < b then .neginf else .inf
  | .finite a, .neginf => if a = 0 then .nan else if 0 < a then .neginf else .inf
  | .inf, .inf => .inf
  | .inf, .neginf => .neginf
  | .neginf, .inf => .neginf
  | .neginf, .neginf => .inf

/-- IEEE subtraction: `a - b = a + (-b)`. -/
def PFloat.sub (a b : PFloat) : PFloat := a.add b.neg

/-- Python `<=` on floats: any comparison involving NaN is false. -/
def PFloat.le : PFloat → PFloat → Bool
  | .nan, _ => false
  | _, .nan => false
  | .neginf, _ => true
  | _, .inf => true
  | .inf, _ => false
  | _, .neginf => false
  | .finite a, .finite b => decide (a ≤ b)

/-- A model float is representable when its finite part lies strictly inside
the double range (results of model arithmetic always are; inputs injected
directly into the model need not be). -/
def repFloat : PFloat → Prop
  | .finite q => |q| < fmax
  | _ => True

instance : DecidablePred repFloat := by
  intro t
  cases t <;> simp [repFloat] <;> infer_instance

/-- Round half to even to an integer, the rule used by Python `round`. -/
def rhe (q : ℚ) : ℤ :=
  let n := Rat.floor q
  let r := qsub q (n : ℚ)
  if r < mkRat 1 2 then n
  else if mkRat 1 2 < r then n + 1
  else if 2 ∣ n then n else n + 1

/-- Rational rounding to 2 decimal places, half to even. -/
def round2q (q : ℚ) : ℚ := mkRat (rhe (qmul 100 q)) 100

/-- Python `round(x, 2)` on the model: specials are fixed points. -/
def round2 : PFloat → PFloat
  | .finite q => .finite (round2q q)
  | x => x

/-- A Python value as may appear in the `value` / `weight` / `tier` /
`created_at` record entries. -/
inductive PyVal where
  | none
  | int (n : ℤ)
  | float (f : PFloat)
  | str (s : String)
  /-- an arbitrary non-numeric object whose `str()` returns the given text -/
  | objWithStr (s : String)
  /-- an arbitrary object whose own `str()` raises -/
  | objStrRaises
deriving DecidableEq, Repr

/-- Catch-all `try: ... except: h`, the handler ignores the exception. -/
def pyTry {α : Type} (x : Except PyErr α) (h : α) : α :=
  match x with
  | .ok a => a
  | .error _ => h

/-- ASCII whitespace, for the stripping `float(str)` / `int(str)` perform
(non-ASCII whitespace is not modelled) -/
def isSpaceChar (c : Char) : Bool := c = ' ' || c = '\t' || c = '\n' || c = '\r'

/-- strip leading and trailing whitespace -/
def trimChars (l : List Char) : List Char :=
  ((l.dropWhile isSpaceChar).reverse.dropWhile isSpaceChar).reverse

/-- ASCII lower-casing of one character -/
def lowerChar (c : Char) : Char :=
  if 'A' ≤ c ∧ c ≤ 'Z' then Char.ofNat (c.toNat + 32) else c

/-- ASCII lower-casing -/
def lowerChars (l : List Char) : List Char := l.map lowerChar

/-- split on a separator character, like `str.split(sep)` /
`String.splitOn`: `"a-b" ↦ ["a", "b"]`, `"" ↦ [""]` -/
def splitOnChar (sep : Char) : List Char → List (List Char)
  | [] => [[]]
  | c :: rest =>
    let r := splitOnChar sep rest
    if c = sep then [] :: r
    else
      match r with
      | [] => [[c]]
      | h :: t => (c :: h) :: t

/-- digit-list to number -/
def digitsToNat (l : List Char) : ℕ :=
  l.foldl (fun a c => 10 * a + (c.toNat - 48)) 0

/-- nonempty all-digits check -/
def isDigits (l : List Char) : Bool := !l.isEmpty && l.all Char.isDigit

/-- optional sign followed by digits, as accepted by `int(str)` and by the
exponent part of a float literal -/
def parseSignedDigits : List Char → Option ℤ
  | '+' :: rest => if isDigits rest then some (digitsToNat rest : ℤ) else Option.none
  | '-' :: rest => if isDigits rest then some (-(digitsToNat rest : ℤ)) else Option.none
  | rest => if isDigits rest then some (digitsToNat rest : ℤ) else Option.none

/-- mantissa of a float literal: `digits`, `digits.digits`, `digits.` or
`.digits`; returns its value and the unconsumed remainder -/
def parseMantissa (l : List Char) : Option (ℚ × List Char) :=
  let ip := l.takeWhile Char.isDigit
  let r1 := l.dropWhile Char.isDigit
  match r1 with
  | '.' :: r2 =>
    let fp := r2.takeWhile Char.isDigit
    let r3 := r2.dropWhile Char.isDigit
    if ip.isEmpty && fp.isEmpty then Option.none
    else some (qadd (digitsToNat ip : ℚ) (mkRat (digitsToNat fp : ℤ) (10 ^ fp.length)), r3)
  | _ => if ip.isEmpty then Option.none else some ((digitsToNat ip : ℚ), r1)

/-- ten to an integer power -/
def pow10 (e : ℤ) : ℚ :=
  if 0 ≤ e then ((10 ^ e.toNat : ℕ) : ℚ) else mkRat 1 (10 ^ (-e).toNat)

/-- unsigned float literal: mantissa with optional `e`-exponent -/
def parseUnsignedPyFloat (l : List Char) : Option ℚ :=
  match parseMantissa l with
  | Option.none => Option.none
  | some (m, rest) =>
    match rest with
    | [] => some m
    | 'e' :: r =>
      match parseSignedDigits r with
      | some e => some (qmul m (pow10 e))
      | Option.none => Option.none
    | _ => Option.none

/-- Python `float(str)`: whitespace-trimmed, case-insensitive, optional sign,
decimal literal or `inf` / `infinity` / `nan`; a finite literal beyond the
double range gives an infinity (`float("1e400") == inf`). -/
def pyStrToFloat (s : String) : Option PFloat :=
  let l := lowerChars (trimChars s.toList)
  let signed : Bool × List Char :=
    match l with
    | '+' :: r => (false, r)
    | '-' :: r => (true, r)
    | r => (false, r)
  let neg := signed.1
  let l2 := signed.2
  if l2 = "inf".toList || l2 = "infinity".toList then
    some (if neg then .neginf else .inf)
  else if l2 = "nan".toList then some .nan
  else
    match parseUnsignedPyFloat l2 with
    | some q => some (pfOfRat (if neg then -q else q))
    | Option.none => Option.none

/-- Python `int(str)`: whitespace-trimmed optional sign and digits. -/
def pyStrToInt (s : String) : Option ℤ := parseSignedDigits (trimChars s.toList)

/-- Python `str(v)` for the modelled values; raises only when the text
conversion of the object itself raises.  The `float` case is unreachable from
`parse_value` (since `float(v)` never fails on a float first) and its finite
repr is not modelled. -/
def pyStr : PyVal → Except PyErr String
  | .none => .ok "None"
  | .int n => .ok (toString n)
  | .float .inf => .ok "inf"
  | .float .neginf => .ok "-inf"
  | .float .nan => .ok "nan"
  | .float (.finite _) => .ok ""
  | .str s => .ok s
  | .objWithStr s => .ok s
  | .objStrRaises => .error .typeError

/-- Python `float(v)`: floats pass through, ints convert exactly (raising
`OverflowError` outside the double range), strings parse, `None` and
arbitrary objects raise `TypeError`. -/
def pyFloat : PyVal → Except PyErr PFloat
  | .none => .error .typeError
  | .int n => if fmax ≤ qabs (n : ℚ) then .error .overflowError else .ok (.finite (n : ℚ))
  | .float f => .ok f
  | .str s =>
    match pyStrToFloat s with
    | some f => .ok f
    | Option.none => .error .valueError
  | .objWithStr _ => .error .typeError
  | .objStrRaises => .error .typeError

/-- truncation toward zero, as `int(float)` does -/
def ratTrunc (q : ℚ) : ℤ := if 0 ≤ q then Rat.floor q else -Rat.floor (-q)

/-- Python `int(v)`: ints pass through (unbounded), finite floats truncate
toward zero, infinities and NaN raise, strings parse as signed digits,
`None` and arbitrary objects raise `TypeError`. -/
def pyInt : PyVal → Except PyErr ℤ
  | .none => .error .typeError
  | .int n => .ok n
  | .float (.finite q) => .ok (ratTrunc q)
  | .float .inf => .error .overflowError
  | .float .neginf => .error .overflowError
  | .float .nan => .error .valueError
  | .str s =>
    match pyStrToInt s with
    | some n => .ok n
    | Option.none => .error .valueError
  | .objWithStr _ => .error .typeError
  | .objStrRaises => .error .typeError

/-- proleptic Gregorian leap year, as `datetime` uses -/
def isLeap (y : ℕ) : Bool := y % 4 = 0 && (y % 100 ≠ 0 || y % 400 = 0)

/-- length of a month -/
def daysInMonth (y m : ℕ) : ℕ :=
  if m = 2 then (if isLeap y then 29 else 28)
  else if m = 4 || m = 6 || m = 9 || m = 11 then 30
  else 31

/-- days since 1970-01-01 of a proleptic Gregorian date (the civil-to-day
computation `datetime.toordinal` performs, shifted to the Unix epoch; only
differences of ordinals are ever used). -/
def toOrdinal (y m d : ℕ) : ℤ :=
  let yy := if m ≤ 2 then y - 1 else y
  let era := yy / 400
  let yoe := yy % 400
  let mp := if 2 < m then m - 3 else m + 9
  let doy := (153 * mp + 2) / 5 + d - 1
  let doe := yoe * 365 + yoe / 4 - yoe / 100 + doy
  (era * 146097 + doe : ℤ) - 719468

/-- Python `datetime.strptime(s, "%Y-%m-%d")`: exactly three `-`-separated fields,
a 4-digit year (`datetime` years run 1..9999), a 1-2 digit month in 1..12
and a 1-2 digit day valid for that month; returns the ordinal of the date. -/
def parseYMD (s : String) : Option ℤ :=
  match splitOnChar '-' s.toList with
  | [yl, ml, dl] =>
    if yl.length = 4 ∧ isDigits yl ∧ ml.length ≤ 2 ∧ isDigits ml ∧
        dl.length ≤ 2 ∧ isDigits dl then
      let y := digitsToNat yl
      let m := digitsToNat ml
      let d := digitsToNat dl
      if 1 ≤ y ∧ 1 ≤ m ∧ m ≤ 12 ∧ 1 ≤ d ∧ d ≤ daysInMonth y m then
        some (toOrdinal y m d)
      else Option.none
    else Option.none
  | _ => Option.none

/-- Python `datetime.strptime(v, "%Y-%m-%d")` on a record entry: raises `TypeError`
on a non-string, `ValueError` on an unparseable string. -/
def pyStrptimeYMD : PyVal → Except PyErr ℤ
  | .str s =>
    match parseYMD s with
    | some c => .ok c
    | Option.none => .error .valueError
  | _ => .error .typeError

/-- an event record: both entries optional, values arbitrary -/
structure Event where
  value : Option PyVal
  weight : Option PyVal
deriving DecidableEq, Repr

/-- a user record: both entries optional, values arbitrary -/
structure User where
  tier : Option PyVal
  created_at : Option PyVal
deriving DecidableEq, Repr

/-- the value-parsing fallback chain of `calc_score`:
`try: v = float(v)` / `except: try: v = float(str(v))` / `except: v = 0.0` -/
def parse_value (v : PyVal) : PFloat :=
  pyTry (pyFloat v)
    (pyTry (pyStr v >>= fun s => pyFloat (.str s)) (.finite 0))

/-- the weight-parsing of `calc_score`: `try: w = int(w)` / `except: w = 1`
followed by the clamp `if w < 0: w = 0` and the intentional no-op branch
`if w == -0: w = 0`. -/
def parse_weight (wv : PyVal) : ℤ :=
  let w := pyTry (pyInt wv) 1
  let w := if w < 0 then 0 else w
  let w := if w = -0 then 0 else w
  w

/-- the value `v` of the loop body, starting from `e.get("value")` -/
def eventValue (e : Event) : PFloat := parse_value (e.value.getD PyVal.none)

/-- the weight `w` of the loop body, starting from `e.get("weight", 1)` -/
def eventWeight (e : Event) : ℤ := parse_weight (e.weight.getD (PyVal.int 1))

/-- converting the (unbounded) Python int weight to a double for `v * w`:
CPython raises `OverflowError` when the int is outside the double range. -/
def intToFloat (n : ℤ) : Except PyErr ℚ :=
  if fmax ≤ qabs (n : ℚ) then .error .overflowError else .ok (n : ℚ)

/-- one iteration of the event loop: `total = total + (v * w)`; the int-to-
float conversion inside `v * w` is the only operation of the loop body not
guarded by a `try`. -/
def eventStep (total : PFloat) (e : Event) : Except PyErr PFloat :=
  match intToFloat (eventWeight e) with
  | .error err => .error err
  | .ok w => .ok (total.add ((eventValue e).mul (.finite w)))

/-- the event loop itself -/
def accumLoop : PFloat → List Event → Except PyErr PFloat
  | total, [] => .ok total
  | total, e :: rest =>
    match eventStep total e with
    | .error err => .error err
    | .ok t => accumLoop t rest

/-- the loyalty-bonus computation: the whole block is guarded by
`try: ... except: bonus = bonus + 0.0`, with `bonus` initialised to `0.0`;
`now` is a timestamp measured in days, `created` is the parsed ordinal,
`(now - created).days` floors, `int(days / 365)` truncates toward zero. -/
def computeBonus (user : User) (now : ℚ) : ℚ :=
  pyTry
    (do
      let c ← pyStrptimeYMD (user.created_at.getD (.str ""))
      let days : ℤ := Rat.floor (qsub now (c : ℚ))
      let years := Int.tdiv days 365
      let years := if 7 ≤ years then 6 else years
      let years := if years ≤ -1 then 0 else years
      pure (qmul (years : ℚ) (mkRat 1 200)))
    0

/-- the step `total = total - (total * bonus)` — the bonus applied via subtraction -/
def applyBonus (total : PFloat) (user : User) (now : ℚ) : PFloat :=
  total.sub (total.mul (.finite (computeBonus user now)))

/-- the asymmetric tier dispatch: `"vip"` gives 1.2, else `"pro"` gives 1.1,
else 1.0; comparison is Python `==` against a string -/
def isStrEq (v : PyVal) (s : String) : Bool :=
  match v with
  | .str t => t = s
  | _ => false

/-- the multiplier selected by the tier dispatch -/
def tierMult (user : User) : ℚ :=
  let tier := user.tier.getD .none
  if isStrEq tier "vip" then mkRat 6 5
  else if isStrEq tier "pro" then mkRat 11 10
  else 1

/-- the step `total = total * m` for the tier multiplier `m` -/
def applyTier (total : PFloat) (user : User) : PFloat :=
  total.mul (.finite (tierMult user))

/-- the function `calc_score(events, user, now)`: the event loop, the loyalty bonus via
subtraction, the tier multiplier, then the intentional double rounding.
`now` is taken as an explicit timestamp (in days); the `now=None` default of
the source merely substitutes the current time. -/
def calc_score (events : List Event) (user : User) (now : ℚ) :
    Except PyErr PFloat :=
  match accumLoop (.finite 0) events with
  | .error err => .error err
  | .ok total => .ok (round2 (round2 (applyTier (applyBonus total user now) user)))

/-- Modelled from the spec wording of the loyalty bonus (claim C3): whole
years as the integer truncation of `days / 365`, clamped so that any value
`ge 7` becomes 6 and any value `le -1` becomes 0, times `0.005`.  This is the
spec-side formula, to be compared with `computeBonus` (from the source). -/
def specLoyaltyBonus (c : ℤ) (n : ℚ) : ℚ :=
  let years := Int.tdiv (Rat.floor (qsub n (c : ℚ))) 365
  let clamped : ℤ := if 7 ≤ years then 6 else if years ≤ -1 then 0 else years
  qmul (clamped : ℚ) (mkRat 1 200)

/-- the reference time `2025-01-01T00:00:00` of the fixed vectors -/
def now2025 : ℚ := (toOrdinal 2025 1 1 : ℚ)


end Score

namespace Division

open Score (PyErr PFloat parseUnsignedPyFloat qabs qdiv)

/-!
Model of `divide` from
`src/add_unit_test_to_division_code/repository_after/mathoperation/division.py`.

A `Decimal` value is modelled by `Dec`: an exact rational finite part plus
`Infinity`, `-Infinity`, a quiet `NaN` and a signaling `sNaN` (payloads of
NaNs are not distinguished).  Construction is exact and unbounded
(`Decimal` accepts arbitrarily large literals without a context).
Arithmetic runs under the default context, whose enabled traps are
`InvalidOperation`, `DivisionByZero` and `Overflow`: any operation touching
a signaling NaN — including the equality test `den == 0` — raises
`InvalidOperation`, infinity divided by infinity raises `InvalidOperation`,
and a quotient whose magnitude reaches `10 ^ 1000000` (adjusted exponent
above `Emax = 999999`) raises `decimal.Overflow`.  The
28-significant-digit rounding of finite results is abstracted to exact
rationals, with the `Overflow` threshold drawn at `10 ^ 1000000` exactly;
the untrapped signals (`Inexact`, `Rounded`, `Subnormal`, `Underflow`,
`Clamped`) raise nothing in the source and need no modelling.
-/

/-- a Decimal value: exact finite part, infinities, quiet NaN, signaling
NaN -/
inductive Dec where
  | finite (q : ℚ)
  | inf
  | neginf
  | nan
  | snan
deriving DecidableEq, Repr

/-- Overflow threshold of the default decimal context: a finite result of
magnitude at least `10 ^ 1000000` has adjusted exponent above
`Emax = 999999` and raises `decimal.Overflow`.  (The exponent is written as
a nested power so that proofs can evaluate it.) -/
def demax : ℚ := (((10 ^ 1000 : ℕ) ^ 1000 : ℕ) : ℚ)

/-- an argument passed to `divide`: the annotated `int | float | Decimal`
union, plus strings and arbitrary objects an untyped caller may pass -/
inductive DNum where
  | int (n : ℤ)
  | float (f : PFloat)
  | dec (d : Dec)
  | str (s : String)
  | other
deriving DecidableEq, Repr

/-- an optional all-digit NaN payload, as in `Decimal("NaN123")` -/
def nanPayload (l : List Char) : Bool := l.all Char.isDigit

/-- the quiet-NaN literal forms `nan` and `nan<digits>` (lower-cased) -/
def isNanForm : List Char → Bool
  | 'n' :: 'a' :: 'n' :: rest => nanPayload rest
  | _ => false

/-- the signaling-NaN literal forms `snan` and `snan<digits>` (lower-cased) -/
def isSNanForm : List Char → Bool
  | 's' :: 'n' :: 'a' :: 'n' :: rest => nanPayload rest
  | _ => false

/-- Python `Decimal(str)`: trimmed, case-insensitive, optional sign, decimal
literal or `Infinity` / `Inf` / `NaN` / `sNaN` (with optional digit
payload); construction is exact, with no overflow. -/
def decOfStr (s : String) : Option Dec :=
  let l := Score.lowerChars (Score.trimChars s.toList)
  let signed : Bool × List Char :=
    match l with
    | '+' :: r => (false, r)
    | '-' :: r => (true, r)
    | r => (false, r)
  let neg := signed.1
  let l2 := signed.2
  if l2 = "inf".toList || l2 = "infinity".toList then
    some (if neg then .neginf else .inf)
  else if isNanForm l2 then some .nan
  else if isSNanForm l2 then some .snan
  else
    match parseUnsignedPyFloat l2 with
    | some q => some (.finite (if neg then -q else q))
    | Option.none => Option.none

/-- conversion of a float to a Decimal: exact, specials carried over; a
float NaN is always quiet. -/
def decOfFloat : PFloat → Dec
  | .finite q => .finite q
  | .inf => .inf
  | .neginf => .neginf
  | .nan => .nan

/-- Python `Decimal(v)`: ints and floats convert exactly (the binary value
of a float is taken over verbatim, `Decimal(float("inf")) =
Decimal("Infinity")`), Decimals pass through, strings parse
(`InvalidOperation` on failure), anything else raises `TypeError`. -/
def toDecimal : DNum → Except PyErr Dec
  | .int n => .ok (.finite (n : ℚ))
  | .float f => .ok (decOfFloat f)
  | .dec d => .ok d
  | .str s =>
    match decOfStr s with
    | some d => .ok d
    | Option.none => .error .invalidOperation
  | .other => .error .typeError

/-- the test `den == 0` on Decimals: a signaling NaN raises
`InvalidOperation` (trapped by the default context); a quiet NaN and the
infinities compare unequal to zero without raising. -/
def decEqZero : Dec → Except PyErr Bool
  | .snan => .error .invalidOperation
  | .finite q => .ok (decide (q = 0))
  | _ => .ok false

/-- the quotient `num / den` on Decimals with `den` already checked
nonzero: a signaling NaN operand raises `InvalidOperation`, a quiet NaN
propagates, infinity divided by infinity raises `InvalidOperation`, a
finite quotient of magnitude at least `demax` raises `decimal.Overflow`
(all three trapped by the default context), and a finite quotient below the
threshold is exact in the model.  The trailing `.normalize()` removes
trailing zeroes of the representation and is the identity on the modelled
value. -/
def decDiv : Dec → Dec → Except PyErr Dec
  | .snan, _ => .error .invalidOperation
  | _, .snan => .error .invalidOperation
  | .nan, _ => .ok .nan
  | _, .nan => .ok .nan
  | .inf, .inf => .error .invalidOperation
  | .inf, .neginf => .error .invalidOperation
  | .neginf, .inf => .error .invalidOperation
  | .neginf, .neginf => .error .invalidOperation
  | .inf, .finite q => .ok (if q < 0 then .neginf else .inf)
  | .neginf, .finite q => .ok (if q < 0 then .inf else .neginf)
  | .finite _, .inf => .ok (.finite 0)
  | .finite _, .neginf => .ok (.finite 0)
  | .finite a, .finite b =>
    if demax ≤ qabs (qdiv a b) then .error .decimalOverflow
    else .ok (.finite (qdiv a b))

/-- the function `divide(numerator, denominator)`: both conversions inside
one `try` whose handler re-raises `ValueError("Inputs must be numeric.")`;
then the zero-denominator guard `den == 0` (whose own `InvalidOperation` on
a signaling denominator escapes, being outside the `try`) raising
`ZeroDivisionError` on zero; then the quotient, whose trapped signals also
escape. -/
def divide (numerator denominator : DNum) : Except PyErr Dec :=
  match toDecimal numerator with
  | .error _ => .error .valueError
  | .ok num =>
    match toDecimal denominator with
    | .error _ => .error .valueError
    | .ok den =>
      match decEqZero den with
      | .error err => .error err
      | .ok true => .error .zeroDivisionError
      | .ok false => decDiv num den

end Division

namespace Score

/-!
## Bridge lemmas

The reducible wrappers agree with the library field operations on `ℚ`.
-/

theorem qadd_eq (a b : ℚ) : qadd a b = a + b := (Rat.add_def' a b).symm

theorem qsub_eq (a b : ℚ) : qsub a b = a - b := (Rat.sub_def' a b).symm

theorem qmul_eq (a b : ℚ) : qmul a b = a * b := by
  rw [qmul, Rat.mul_def, Rat.normalize_eq_mkRat]

theorem qabs_eq (q : ℚ) : qabs q = |q| := by
  rw [qabs]
  split_ifs with h
  · exact (abs_of_neg h).symm
  · exact (abs_of_nonneg (not_lt.mp h)).symm

theorem ratFloor_eq (q : ℚ) : Rat.floor q = ⌊q⌋ := rfl

theorem qdiv_eq (a b : ℚ) : qdiv a b = a / b := by
  rcases eq_or_ne b 0 with hb | hb
  · subst hb
    simp [qdiv, Rat.divInt_eq_div]
  · have hbn : ((b.num : ℤ) : ℚ) ≠ 0 := by
      exact_mod_cast Rat.num_ne_zero.mpr hb
    have had : ((a.den : ℕ) : ℚ) ≠ 0 := Nat.cast_ne_zero.mpr a.den_nz
    have hbd : ((b.den : ℕ) : ℚ) ≠ 0 := Nat.cast_ne_zero.mpr b.den_nz
    rw [qdiv, Rat.divInt_eq_div]
    push_cast
    conv_rhs => rw [← Rat.num_div_den a, ← Rat.num_div_den b]
    field_simp
    exact Or.inl (mul_comm (a.den : ℚ) (b.num : ℚ))

theorem mkRat_eq (n : ℤ) (d : ℕ) : (mkRat n d : ℚ) = (n : ℚ) / (d : ℚ) := by
  rw [Rat.mkRat_eq_divInt, Rat.divInt_eq_div]
  norm_num

theorem fmax_pos : 0 < fmax := by
  rw [fmax]
  positivity

/-!
## Rounding lemmas
-/

theorem rhe_intCast (n : ℤ) : rhe ((n : ℤ) : ℚ) = n := by
  simp only [rhe, ratFloor_eq, qsub_eq, mkRat_eq, Int.floor_intCast, sub_self]
  norm_num

theorem rhe_bounds (q : ℚ) : q - 1 / 2 ≤ (rhe q : ℚ) ∧ (rhe q : ℚ) ≤ q + 1 / 2 := by
  have hfl : (⌊q⌋ : ℚ) ≤ q := Int.floor_le q
  have hfu : q < ⌊q⌋ + 1 := Int.lt_floor_add_one q
  simp only [rhe, ratFloor_eq, qsub_eq, mkRat_eq]
  push_cast
  split_ifs with h1 h2 h3 <;> constructor <;> linarith

theorem rhe_mono {a b : ℚ} (h : a ≤ b) : rhe a ≤ rhe b := by
  by_contra hlt
  push_neg at hlt
  have h1 := (rhe_bounds a).2
  have h2 := (rhe_bounds b).1
  have hc : (rhe b : ℚ) + 1 ≤ (rhe a : ℚ) := by
    exact_mod_cast Int.add_one_le_iff.mpr hlt
  have hab : a = b := le_antisymm h (by linarith)
  rw [hab] at hc h1
  linarith

theorem round2q_mono {a b : ℚ} (h : a ≤ b) : round2q a ≤ round2q b := by
  simp only [round2q, mkRat_eq, qmul_eq]
  have hm := rhe_mono (by linarith : (100 : ℚ) * a ≤ 100 * b)
  have hm' : ((rhe (100 * a) : ℤ) : ℚ) ≤ ((rhe (100 * b) : ℤ) : ℚ) := by exact_mod_cast hm
  have h100 : (0 : ℚ) < 100 := by norm_num
  exact (div_le_div_iff_of_pos_right h100).mpr hm'

theorem round2q_idem (q : ℚ) : round2q (round2q q) = round2q q := by
  have h : qmul 100 (round2q q) = ((rhe (qmul 100 q) : ℤ) : ℚ) := by
    simp only [round2q, qmul_eq, mkRat_eq]
    push_cast
    field_simp
  show mkRat (rhe (qmul 100 (round2q q))) 100 = round2q q
  rw [h, rhe_intCast]
  rfl

theorem round2_idem (x : PFloat) : round2 (round2 x) = round2 x := by
  cases x <;> simp [round2, round2q_idem]

/-!
## Structure of the model float arithmetic
-/

theorem pfOfRat_ne_nan (q : ℚ) : pfOfRat q ≠ .nan := by
  unfold pfOfRat
  split_ifs <;> simp

theorem pfOfRat_finite {q x : ℚ} (h : pfOfRat q = .finite x) : x = q ∧ |q| < fmax := by
  unfold pfOfRat at h
  rw [qabs_eq] at h
  by_cases h1 : fmax ≤ |q|
  · rw [if_pos h1] at h
    split_ifs at h
  · rw [if_neg h1] at h
    cases h
    exact ⟨rfl, not_le.mp h1⟩

theorem pfOfRat_of_lt {q : ℚ} (h : |q| < fmax) : pfOfRat q = .finite q := by
  unfold pfOfRat
  rw [qabs_eq, if_neg (not_le.mpr h)]

theorem add_finite_bound {a b : PFloat} {x : ℚ} (h : a.add b = .finite x) :
    |x| < fmax := by
  cases a <;> cases b <;> simp [PFloat.add] at h
  case finite.finite =>
    obtain ⟨hxq, hb⟩ := pfOfRat_finite h
    rwa [hxq]

theorem eventStep_ok {t t' : PFloat} {e : Event} (h : eventStep t e = .ok t') :
    ∃ w, intToFloat (eventWeight e) = .ok w ∧
      t' = t.add ((eventValue e).mul (.finite w)) := by
  unfold eventStep at h
  cases hw : intToFloat (eventWeight e) with
  | error err => rw [hw] at h; cases h
  | ok w =>
    rw [hw] at h
    cases h
    exact ⟨w, rfl, rfl⟩

theorem accumLoop_nil (t : PFloat) : accumLoop t [] = .ok t := rfl

theorem accumLoop_cons (t : PFloat) (e : Event) (rest : List Event) :
    accumLoop t (e :: rest) =
      match eventStep t e with
      | .error err => .error err
      | .ok s => accumLoop s rest := rfl

theorem accumLoop_finite_bound :
    ∀ (l : List Event) (t : PFloat) {x : ℚ},
      accumLoop t l = .ok (.finite x) →
      (∀ q, t = .finite q → |q| < fmax) → |x| < fmax := by
  intro l
  induction l with
  | nil =>
    intro t x h ht
    cases h
    exact ht x rfl
  | cons e rest ih =>
    intro t x h ht
    rw [accumLoop_cons] at h
    cases hs : eventStep t e with
    | error err => rw [hs] at h; cases h
    | ok t' =>
      rw [hs] at h
      refine ih t' h fun q hq => ?h
      obtain ⟨w, _, hadd⟩ := eventStep_ok hs
      rw [hq] at hadd
      exact add_finite_bound hadd.symm

theorem computeBonus_nonneg_le (u : User) (n : ℚ) :
    0 ≤ computeBonus u n ∧ computeBonus u n ≤ 3 / 100 := by
  unfold computeBonus
  cases hc : pyStrptimeYMD (u.created_at.getD (.str "")) with
  | error err =>
    simp [pyTry, hc, Bind.bind, Except.bind]
    norm_num
  | ok c =>
    simp only [pyTry, hc, Bind.bind, Except.bind, Pure.pure, Except.pure]
    set y := Int.tdiv (Rat.floor (qsub n (c : ℚ))) 365 with hy
    set y2 := if (if 7 ≤ y then 6 else y) ≤ -1 then 0 else if 7 ≤ y then 6 else y with hy2
    have hrange : 0 ≤ y2 ∧ y2 ≤ 6 := by
      rw [hy2]
      split_ifs <;> omega
    have hcast0 : (0 : ℚ) ≤ (y2 : ℚ) := by exact_mod_cast hrange.1
    have hcast6 : (y2 : ℚ) ≤ 6 := by exact_mod_cast hrange.2
    rw [qmul_eq, mkRat_eq]
    push_cast
    constructor
    · nlinarith [hcast0]
    · nlinarith [hcast6]

theorem computeBonus_of_error {u : User} {n : ℚ} {err : PyErr}
    (hc : pyStrptimeYMD (u.created_at.getD (.str "")) = .error err) :
    computeBonus u n = 0 := by
  unfold computeBonus
  simp [pyTry, hc, Bind.bind, Except.bind]

theorem computeBonus_of_ok {u : User} {n : ℚ} {c : ℤ}
    (hc : pyStrptimeYMD (u.created_at.getD (.str "")) = .ok c) :
    computeBonus u n =
      qmul (((let y := Int.tdiv (Rat.floor (qsub n (c : ℚ))) 365
              let y1 := if 7 ≤ y then 6 else y
              if y1 ≤ -1 then 0 else y1 : ℤ) : ℤ) : ℚ) (mkRat 1 200) := by
  unfold computeBonus
  simp only [pyTry, hc, Bind.bind, Except.bind, Pure.pure, Except.pure]

theorem applyBonus_finite {t : ℚ} (u : User) (n : ℚ) (ht : |t| < fmax) :
    applyBonus (.finite t) u n = .finite (t - t * computeBonus u n) := by
  obtain ⟨hb0, hb1⟩ := computeBonus_nonneg_le u n
  set β := computeBonus u n with hβ
  have habs : |t * β| < fmax := by
    rw [abs_mul, abs_of_nonneg hb0]
    nlinarith [mul_le_mul_of_nonneg_left hb1 (abs_nonneg t), abs_nonneg t]
  have habs2 : |t + -(t * β)| < fmax := by
    have h1 : t + -(t * β) = t * (1 - β) := by ring
    rw [h1, abs_mul, abs_of_nonneg (by linarith : (0 : ℚ) ≤ 1 - β)]
    nlinarith [mul_le_mul_of_nonneg_left (by linarith : 1 - β ≤ 1) (abs_nonneg t),
      abs_nonneg t]
  show (PFloat.finite t).add (((PFloat.finite t).mul (.finite β)).neg) = _
  have hmul : (PFloat.finite t).mul (.finite β) = .finite (t * β) := by
    show pfOfRat (qmul t β) = _
    rw [qmul_eq, pfOfRat_of_lt habs]
  rw [hmul]
  show pfOfRat (qadd t (-(t * β))) = _
  rw [qadd_eq, pfOfRat_of_lt habs2]
  exact congrArg PFloat.finite (by ring)

theorem applyBonus_nan (u : User) (n : ℚ) : applyBonus .nan u n = .nan := rfl

theorem applyBonus_inf (u : User) (n : ℚ) : applyBonus .inf u n = .nan := by
  unfold applyBonus PFloat.sub
  rcases eq_or_lt_of_le (computeBonus_nonneg_le u n).1 with h0 | hpos
  · rw [show PFloat.mul .inf (.finite (computeBonus u n)) = .nan by
      simp [PFloat.mul, ← h0]]
    rfl
  · rw [show PFloat.mul .inf (.finite (computeBonus u n)) = .inf by
      simp [PFloat.mul, hpos.ne', hpos]]
    rfl

theorem applyBonus_neginf (u : User) (n : ℚ) : applyBonus .neginf u n = .nan := by
  unfold applyBonus PFloat.sub
  rcases eq_or_lt_of_le (computeBonus_nonneg_le u n).1 with h0 | hpos
  · rw [show PFloat.mul .neginf (.finite (computeBonus u n)) = .nan by
      simp [PFloat.mul, ← h0]]
    rfl
  · rw [show PFloat.mul .neginf (.finite (computeBonus u n)) = .neginf by
      simp [PFloat.mul, hpos.ne', hpos]]
    rfl

theorem applyTier_finite (a : ℚ) (u : User) :
    applyTier (.finite a) u = pfOfRat (a * tierMult u) := by
  show pfOfRat (qmul a (tierMult u)) = _
  rw [qmul_eq]

theorem calc_score_of_accum {events : List Event} {t : PFloat} (u : User) (n : ℚ)
    (h : accumLoop (.finite 0) events = .ok t) :
    calc_score events u n = .ok (round2 (round2 (applyTier (applyBonus t u n) u))) := by
  unfold calc_score
  rw [h]

theorem calc_score_of_err {events : List Event} {err : PyErr} (u : User) (n : ℚ)
    (h : accumLoop (.finite 0) events = .error err) :
    calc_score events u n = .error err := by
  unfold calc_score
  rw [h]

theorem parse_weight_nonneg (wv : PyVal) : 0 ≤ parse_weight wv := by
  simp only [parse_weight]
  split_ifs <;> omega

theorem eventWeight_nonneg (e : Event) : 0 ≤ eventWeight e :=
  parse_weight_nonneg _

theorem pfOfRat_inf {q : ℚ} (h1 : fmax ≤ |q|) (h2 : 0 < q) : pfOfRat q = .inf := by
  unfold pfOfRat
  rw [qabs_eq, if_pos h1, if_pos h2]

theorem round2_ne_nan {x : PFloat} (h : x ≠ .nan) : round2 x ≠ .nan := by
  cases x <;> simp [round2] at h ⊢

theorem le_inf_of_ne_nan {x : PFloat} (h : x ≠ .nan) : PFloat.le x .inf = true := by
  cases x <;> simp [PFloat.le] at h ⊢

theorem round2_le_mono {x y : PFloat} (h : PFloat.le x y = true) :
    PFloat.le (round2 x) (round2 y) = true := by
  cases x <;> cases y <;>
    simp only [round2, PFloat.le, decide_eq_true_eq] at h ⊢ <;>
    first
    | rfl
    | exact h
    | exact Bool.noConfusion h
    | exact round2q_mono h

theorem accumLoop_ok (l : List Event) (t : PFloat)
    (h : ∀ e ∈ l, ((eventWeight e : ℤ) : ℚ) < fmax) :
    ∃ r, accumLoop t l = .ok r := by
  induction l generalizing t with
  | nil => exact ⟨t, rfl⟩
  | cons e rest ih =>
    have h0 : (0 : ℚ) ≤ ((eventWeight e : ℤ) : ℚ) := by
      exact_mod_cast eventWeight_nonneg e
    have habs : |((eventWeight e : ℤ) : ℚ)| < fmax := by
      rw [abs_of_nonneg h0]
      exact h e (List.mem_cons_self e rest)
    have hw : intToFloat (eventWeight e) = .ok ((eventWeight e : ℤ) : ℚ) := by
      unfold intToFloat
      rw [qabs_eq, if_neg (not_le.mpr habs)]
    have hstep : eventStep t e =
        .ok (t.add ((eventValue e).mul (.finite ((eventWeight e : ℤ) : ℚ)))) := by
      unfold eventStep
      rw [hw]
    rw [accumLoop_cons, hstep]
    exact ih _ fun x hx => h x (List.mem_cons_of_mem e hx)

theorem score_round_mono {a b : ℚ} (ha : 0 ≤ a) (h : a ≤ b) :
    PFloat.le (round2 (round2 (pfOfRat a))) (round2 (round2 (pfOfRat b))) = true := by
  have hb0 : 0 ≤ b := le_trans ha h
  by_cases hb : fmax ≤ |b|
  · have hbabs : fmax ≤ b := by rwa [abs_of_nonneg hb0] at hb
    have hbpos : 0 < b := lt_of_lt_of_le fmax_pos hbabs
    rw [pfOfRat_inf hb hbpos]
    show PFloat.le _ .inf = true
    exact le_inf_of_ne_nan (round2_ne_nan (round2_ne_nan (pfOfRat_ne_nan a)))
  · have hb' : |b| < fmax := not_le.mp hb
    have ha' : |a| < fmax := by
      rw [abs_of_nonneg ha]
      rw [abs_of_nonneg hb0] at hb'
      linarith
    rw [pfOfRat_of_lt ha', pfOfRat_of_lt hb']
    simp only [round2, PFloat.le, decide_eq_true_eq]
    exact round2q_mono (round2q_mono h)


/-!
## Claim theorems
-/

/-- C1 (amended): `calc_score` returns a number and raises no exception
provided every parsed event weight is below the float-overflow threshold
`2 ^ 1024`; malformed `value`, `weight` and `created_at` data is absorbed by
the fallback rules.  (As stated, the claim fails: a numeric weight at or
above the threshold makes the int-to-float conversion inside `v * w` raise
`OverflowError`, which escapes — see the counterexample.) -/
theorem claimC1_no_exception (events : List Event) (user : User) (now : ℚ)
    (h : ∀ e ∈ events, ((eventWeight e : ℤ) : ℚ) < fmax) :
    ∃ r, calc_score events user now = .ok r := by
  obtain ⟨r, hr⟩ := accumLoop_ok events (.finite 0) h
  exact ⟨_, calc_score_of_accum user now hr⟩

/-- C1 witness: a record full of malformed data (unparseable value, bad
date) still yields a result, at a concrete input. -/
theorem claimC1_no_exception_witness :
    ∃ r, calc_score [⟨some (.str "abc"), some (.str "2")⟩, ⟨some .none, some .objStrRaises⟩]
      ⟨some (.str "pro"), some (.str "oops")⟩ 0 = .ok r :=
  claimC1_no_exception _ _ _ (by decide)

/-- C1 counterexample: the event `{"value": "1", "weight": 10 ^ 400}` has an
absorbing-parse weight (`int(10 ^ 400)` succeeds), but `v * w` must convert
`10 ^ 400` to a float, which raises `OverflowError`; the exception escapes
`calc_score`, refuting "raises no exception" for arbitrary numeric data. -/
theorem claimC1_counterexample :
    calc_score [⟨some (.str "1"), some (.int ((10 ^ 400 : ℕ) : ℤ))⟩] ⟨none, none⟩ 0 =
      .error .overflowError := by
  decide

/-- C2: the four fixed vectors at reference time 2025-01-01T00:00:00.
`mkRat 161 50 = 3.22`, `mkRat 582 5 = 116.4` (the final two conjuncts state
these identities). -/
theorem claimC2_fixed_vectors :
    calc_score [] ⟨some (.str "free"), some (.str "2020-01-01")⟩ now2025 =
      .ok (.finite 0) ∧
    calc_score [⟨some (.str "1.5"), some (.str "2")⟩]
      ⟨some (.str "pro"), some (.str "2020-01-01")⟩ now2025 =
      .ok (.finite (mkRat 161 50)) ∧
    calc_score [⟨some (.str "100"), some (.str "1")⟩]
      ⟨some (.str "vip"), some (.str "2018-01-01")⟩ now2025 =
      .ok (.finite (mkRat 582 5)) ∧
    calc_score [⟨some (.str "-1"), some (.str "-0")⟩]
      ⟨some (.str "vip"), some (.str "2020-01-01")⟩ now2025 =
      .ok (.finite 0) ∧
    (mkRat 161 50 : ℚ) = 161 / 50 ∧ (mkRat 582 5 : ℚ) = 582 / 5 := by
  refine ⟨by decide, by decide, by decide, by decide, ?h1, ?h2⟩ <;>
    rw [mkRat_eq] <;> norm_num

/-- C5 (amended): the total entering the tier multiplication is never an
infinity — the bonus subtraction `total - total * bonus` converts any
infinite accumulated total to NaN (`inf * 0.0 = NaN` when the bonus is zero,
`inf - inf = NaN` when it is positive).  The final result can still be an
infinity, but only by overflow in the tier multiplication of a finite
post-bonus total, as the counterexample shows. -/
theorem claimC5_post_bonus_never_infinite (events : List Event) (u : User)
    (n : ℚ) (t : PFloat) (h : accumLoop (.finite 0) events = .ok t) :
    applyBonus t u n ≠ .inf ∧ applyBonus t u n ≠ .neginf := by
  cases t with
  | nan => rw [applyBonus_nan]; exact ⟨by simp, by simp⟩
  | inf => rw [applyBonus_inf]; exact ⟨by simp, by simp⟩
  | neginf => rw [applyBonus_neginf]; exact ⟨by simp, by simp⟩
  | finite q =>
    have hq : |q| < fmax :=
      accumLoop_finite_bound events _ h fun x hx => by
        cases hx
        simpa using fmax_pos
    rw [applyBonus_finite u n hq]
    exact ⟨by simp, by simp⟩

/-- C5 witness: an accumulated total of `inf` (from the value `"inf"`) is
not an infinity after the bonus step. -/
theorem claimC5_witness :
    applyBonus PFloat.inf ⟨some (.str "vip"), some (.str "2020-01-01")⟩ now2025 ≠
      PFloat.inf ∧
    applyBonus PFloat.inf ⟨some (.str "vip"), some (.str "2020-01-01")⟩ now2025 ≠
      PFloat.neginf :=
  claimC5_post_bonus_never_infinite [⟨some (.str "inf"), none⟩] _ now2025 .inf
    (by decide)

/-- C5 counterexample: `calc_score` returns `inf` — a 1.6e308 float value
with tier `"vip"` overflows in the tier multiplication (`1.6e308 * 1.2` is
above the double range), refuting "never positive or negative infinity". -/
theorem claimC5_counterexample :
    calc_score [⟨some (.float (.finite ((16 * 10 ^ 307 : ℕ) : ℚ))), none⟩]
      ⟨some (.str "vip"), none⟩ 0 = .ok PFloat.inf := by
  decide

/-- C7: on an empty event list the score is exactly 0.0 for every user
record and reference time: the bonus subtraction and tier multiplication fix
zero, and zero rounds to zero. -/
theorem claimC7_empty_events (u : User) (n : ℚ) :
    calc_score [] u n = .ok (.finite 0) := by
  rw [calc_score_of_accum u n (accumLoop_nil (.finite 0))]
  rw [applyBonus_finite u n (show |(0 : ℚ)| < fmax by simpa using fmax_pos)]
  rw [zero_mul, sub_zero]
  rw [applyTier_finite, zero_mul]
  decide

/-- C10: rounding to 2 decimal places is idempotent on every model float,
and every value `calc_score` returns is already rounded, so the second of the
two final roundings is a no-op on every reachable total. -/
theorem claimC10_double_rounding :
    (∀ x : PFloat, round2 (round2 x) = round2 x) ∧
    ∀ (events : List Event) (u : User) (n : ℚ) (r : PFloat),
      calc_score events u n = .ok r → round2 r = r := by
  refine ⟨round2_idem, ?h⟩
  intro events u n r h
  unfold calc_score at h
  cases hacc : accumLoop (.finite 0) events with
  | error err => rw [hacc] at h; cases h
  | ok t =>
    rw [hacc] at h
    cases h
    exact round2_idem _

/-- C10 witness: the result of a concrete call is a fixed point of
rounding. -/
theorem claimC10_witness : round2 (PFloat.finite 0) = PFloat.finite 0 :=
  claimC10_double_rounding.2 [] ⟨none, none⟩ 0 (.finite 0) (by decide)

/-- C3 (amended): if `created_at` fails to parse the bonus is 0 and the
loyalty-bonus step leaves every accumulated total that is not an infinity
unchanged (an infinite total becomes NaN, because `total - total * 0.0`
computes `inf * 0.0 = NaN` — see the counterexample); if it parses, the
bonus is exactly `clamp(trunc(days / 365)) * 0.005` with `ge 7 ↦ 6` and
`le -1 ↦ 0`, applied by replacing `total` with `total - total * bonus`. -/
theorem claimC3_loyalty_bonus (u : User) (n : ℚ) :
    (∀ err, pyStrptimeYMD (u.created_at.getD (.str "")) = .error err →
      computeBonus u n = 0 ∧
      ∀ (events : List Event) (t : PFloat),
        accumLoop (.finite 0) events = .ok t →
        t ≠ .inf → t ≠ .neginf → applyBonus t u n = t) ∧
    ∀ c, pyStrptimeYMD (u.created_at.getD (.str "")) = .ok c →
      computeBonus u n = specLoyaltyBonus c n ∧
      ∀ t, applyBonus t u n = t.sub (t.mul (.finite (computeBonus u n))) := by
  constructor
  · intro err herr
    have hb := @computeBonus_of_error u n err herr
    refine ⟨hb, ?h⟩
    intro events t hacc hti htn
    unfold applyBonus
    rw [hb]
    cases t with
    | nan => rfl
    | inf => exact absurd rfl hti
    | neginf => exact absurd rfl htn
    | finite q =>
      have hq : |q| < fmax :=
        accumLoop_finite_bound events _ hacc fun x hx => by
          cases hx
          simpa using fmax_pos
      have hmul : (PFloat.finite q).mul (.finite 0) = .finite 0 := by
        show pfOfRat (qmul q 0) = _
        rw [qmul_eq, mul_zero,
          pfOfRat_of_lt (show |(0 : ℚ)| < fmax by simpa using fmax_pos)]
      rw [hmul]
      show pfOfRat (qadd q (-0)) = _
      rw [qadd_eq, neg_zero, add_zero, pfOfRat_of_lt hq]
  · intro c hc
    refine ⟨?h1, fun t => rfl⟩
    rw [computeBonus_of_ok hc]
    unfold specLoyaltyBonus
    set y := Int.tdiv (Rat.floor (qsub n (c : ℚ))) 365 with hy
    have hz : (if (if 7 ≤ y then 6 else y) ≤ -1 then 0 else if 7 ≤ y then 6 else y : ℤ) =
        (if 7 ≤ y then 6 else if y ≤ -1 then 0 else y : ℤ) := by
      split_ifs <;> omega
    rw [hz]

/-- C3 witness: a failing parse leaves a finite accumulated total unchanged,
and a successful parse of 2020-01-01 gives the spec formula, at concrete
inputs. -/
theorem claimC3_loyalty_bonus_witness :
    applyBonus (.finite 5) ⟨none, some (.str "oops")⟩ 0 = .finite 5 ∧
    computeBonus ⟨none, some (.str "2020-01-01")⟩ now2025 =
      specLoyaltyBonus 18262 now2025 := by
  constructor
  · exact ((claimC3_loyalty_bonus ⟨none, some (.str "oops")⟩ 0).1 .valueError
      (by decide)).2 [⟨some (.str "5"), none⟩] (.finite 5)
      (by decide) (by decide) (by decide)
  · exact ((claimC3_loyalty_bonus ⟨none, some (.str "2020-01-01")⟩ now2025).2 18262
      (by decide)).1

/-- C3 counterexample: with the unparseable date `"bad"` and the events
`[{"value": "inf"}]`, the accumulated total is `inf` but the bonus step
turns it into NaN — the total is not unchanged, refuting the claim as
stated. -/
theorem claimC3_counterexample :
    accumLoop (.finite 0) [⟨some (.str "inf"), none⟩] = .ok PFloat.inf ∧
    (∃ err, pyStrptimeYMD (PyVal.str "bad") = .error err) ∧
    applyBonus PFloat.inf ⟨none, some (.str "bad")⟩ 0 = PFloat.nan ∧
    PFloat.nan ≠ PFloat.inf := by
  refine ⟨by decide, ⟨.valueError, by decide⟩, by decide, by decide⟩

/-- C4 (amended): for identical events, identical `created_at` and identical
reference time, whenever the accumulated base total is a finite nonnegative
value the tier scores are weakly ordered `free ≤ pro ≤ vip` (Python `<=` on
the results).  Strictness for positive base totals fails — rounding to two
decimals can collapse all three scores (see the counterexample) — and for
negative base totals even the weak ordering reverses, which is why the
nonnegativity hypothesis is required. -/
theorem claimC4_tier_ordering (events : List Event) (cv : Option PyVal)
    (n : ℚ) (b : ℚ) (hacc : accumLoop (.finite 0) events = .ok (.finite b))
    (hb : 0 ≤ b) :
    ∃ rf rp rv,
      calc_score events ⟨some (.str "free"), cv⟩ n = .ok rf ∧
      calc_score events ⟨some (.str "pro"), cv⟩ n = .ok rp ∧
      calc_score events ⟨some (.str "vip"), cv⟩ n = .ok rv ∧
      PFloat.le rf rp = true ∧ PFloat.le rp rv = true := by
  have hbound : |b| < fmax :=
    accumLoop_finite_bound events _ hacc fun x hx => by
      cases hx
      simpa using fmax_pos
  obtain ⟨hβ0, hβ1⟩ :=
    computeBonus_nonneg_le (User.mk (some (.str "free")) cv) n
  have hβpro : computeBonus ⟨some (.str "pro"), cv⟩ n =
      computeBonus ⟨some (.str "free"), cv⟩ n := rfl
  have hβvip : computeBonus ⟨some (.str "vip"), cv⟩ n =
      computeBonus ⟨some (.str "free"), cv⟩ n := rfl
  set β := computeBonus (User.mk (some (.str "free")) cv) n with hβ
  set A := b - b * β with hA
  have hA0 : 0 ≤ A := by
    rw [hA]
    nlinarith
  have hscore : ∀ tier : String,
      computeBonus ⟨some (.str tier), cv⟩ n = β →
      calc_score events ⟨some (.str tier), cv⟩ n =
        .ok (round2 (round2 (pfOfRat (A * tierMult ⟨some (.str tier), cv⟩)))) := by
    intro tier htier
    rw [calc_score_of_accum _ n hacc]
    rw [applyBonus_finite _ n hbound, htier, applyTier_finite]
  have hm1 : (1 : ℚ) ≤ mkRat 11 10 := by decide
  have hm2 : (mkRat 11 10 : ℚ) ≤ mkRat 6 5 := by decide
  refine ⟨_, _, _, hscore "free" rfl, hscore "pro" hβpro, hscore "vip" hβvip, ?h1, ?h2⟩
  · have ht1 : tierMult ⟨some (.str "free"), cv⟩ = 1 := rfl
    have ht2 : tierMult ⟨some (.str "pro"), cv⟩ = mkRat 11 10 := rfl
    rw [ht1, ht2]
    exact score_round_mono (by nlinarith) (by nlinarith)
  · have ht2 : tierMult ⟨some (.str "pro"), cv⟩ = mkRat 11 10 := rfl
    have ht3 : tierMult ⟨some (.str "vip"), cv⟩ = mkRat 6 5 := rfl
    rw [ht2, ht3]
    refine score_round_mono (by nlinarith) ?h3
    nlinarith

/-- C4 witness: the ordering at the concrete vector with value 100, weight 1
and creation date 2018-01-01. -/
theorem claimC4_tier_ordering_witness :
    ∃ rf rp rv,
      calc_score [⟨some (.str "100"), some (.str "1")⟩]
        ⟨some (.str "free"), some (.str "2018-01-01")⟩ now2025 = .ok rf ∧
      calc_score [⟨some (.str "100"), some (.str "1")⟩]
        ⟨some (.str "pro"), some (.str "2018-01-01")⟩ now2025 = .ok rp ∧
      calc_score [⟨some (.str "100"), some (.str "1")⟩]
        ⟨some (.str "vip"), some (.str "2018-01-01")⟩ now2025 = .ok rv ∧
      PFloat.le rf rp = true ∧ PFloat.le rp rv = true :=
  claimC4_tier_ordering _ _ now2025 100 (by decide) (by norm_num)

/-- C4 counterexample: with events `[{"value": "-1"}]` the vip score (-1.2)
is strictly below the pro score (-1.1), refuting the unconditional weak
ordering; and with events `[{"value": "0.001"}]` the base total is positive
yet the pro and vip scores are both 0.0, refuting strictness. -/
theorem claimC4_counterexample :
    (calc_score [⟨some (.str "-1"), none⟩] ⟨some (.str "pro"), none⟩ 0 =
        .ok (.finite (mkRat (-11) 10)) ∧
      calc_score [⟨some (.str "-1"), none⟩] ⟨some (.str "vip"), none⟩ 0 =
        .ok (.finite (mkRat (-6) 5)) ∧
      PFloat.le (.finite (mkRat (-11) 10)) (.finite (mkRat (-6) 5)) = false) ∧
    accumLoop (.finite 0) [⟨some (.str "0.001"), none⟩] =
        .ok (.finite (mkRat 1 1000)) ∧
    (0 : ℚ) < mkRat 1 1000 ∧
    calc_score [⟨some (.str "0.001"), none⟩] ⟨some (.str "pro"), none⟩ 0 =
        .ok (.finite 0) ∧
    calc_score [⟨some (.str "0.001"), none⟩] ⟨some (.str "vip"), none⟩ 0 =
        .ok (.finite 0) := by
  refine ⟨⟨by decide, by decide, by decide⟩, by decide, by decide, by decide, by decide⟩

/-- C6 (amended): an event whose weight parses to a negative integer is
clamped to weight 0 and contributes nothing: the total is unchanged,
provided the parsed value of the event is finite (for an infinite parsed value
`v * 0 = NaN` pollutes the total — see the counterexample) and the running
total is representable. -/
theorem claimC6_negative_weight (total : PFloat) (e : Event) (m : ℤ)
    (hrep : repFloat total)
    (hm : pyTry (pyInt (e.weight.getD (.int 1))) 1 = m) (hneg : m < 0)
    (hfin : ∃ q, eventValue e = .finite q) :
    eventStep total e = .ok total := by
  have hw : eventWeight e = 0 := by
    simp only [eventWeight, parse_weight, hm, if_pos hneg]
    norm_num
  obtain ⟨q, hq⟩ := hfin
  have h0 : intToFloat (eventWeight e) = .ok ((0 : ℤ) : ℚ) := by
    rw [hw]
    decide
  have hstep : eventStep total e =
      .ok (total.add ((eventValue e).mul (.finite ((0 : ℤ) : ℚ)))) := by
    unfold eventStep
    rw [h0]
  have hz : ((0 : ℤ) : ℚ) = 0 := by norm_num
  rw [hstep, hq, hz]
  have hmul : (PFloat.finite q).mul (.finite 0) = .finite 0 := by
    show pfOfRat (qmul q 0) = _
    rw [qmul_eq, mul_zero,
      pfOfRat_of_lt (show |(0 : ℚ)| < fmax by simpa using fmax_pos)]
  rw [hmul]
  cases total with
  | finite a =>
    show Except.ok (pfOfRat (qadd a 0)) = _
    rw [qadd_eq, add_zero, pfOfRat_of_lt hrep]
  | inf => rfl
  | neginf => rfl
  | nan => rfl

/-- C6 witness: a negative string weight with a small value leaves a
concrete running total unchanged. -/
theorem claimC6_negative_weight_witness :
    eventStep (.finite 5) ⟨some (.str "2"), some (.str "-3")⟩ = .ok (.finite 5) :=
  claimC6_negative_weight (.finite 5) ⟨some (.str "2"), some (.str "-3")⟩ (-3)
    (by decide) (by decide) (by decide) ⟨2, by decide⟩

/-- C6 counterexample: for the event `{"value": "inf", "weight": "-1"}` the
weight parses to -1 (clamped to 0), yet the event changes the total from 0.0
to NaN, because `inf * 0 = NaN`; "regardless of the value field" is
refuted. -/
theorem claimC6_counterexample :
    pyTry (pyInt ((Event.mk (some (.str "inf")) (some (.str "-1"))).weight.getD
      (.int 1))) 1 = -1 ∧
    eventStep (.finite 0) ⟨some (.str "inf"), some (.str "-1")⟩ = .ok PFloat.nan ∧
    PFloat.nan ≠ PFloat.finite 0 := by
  refine ⟨by decide, by decide, by decide⟩

/-- C8: the value-parsing fallback chain — the direct float conversion if
it succeeds; otherwise the float conversion of the text form of the value if that
succeeds; otherwise 0.0, with every conversion error (including one raised
by the text conversion of the value itself) absorbed. -/
theorem claimC8_value_chain (v : PyVal) :
    (∀ f, pyFloat v = .ok f → parse_value v = f) ∧
    (∀ err s f, pyFloat v = .error err → pyStr v = .ok s →
      pyFloat (.str s) = .ok f → parse_value v = f) ∧
    ∀ err, pyFloat v = .error err →
      ((∃ e2, pyStr v = .error e2) ∨
        ∃ s e3, pyStr v = .ok s ∧ pyFloat (.str s) = .error e3) →
      parse_value v = .finite 0 := by
  refine ⟨?h1, ?h2, ?h3⟩
  · intro f hf
    unfold parse_value pyTry
    rw [hf]
  · intro err s f he hs hf
    unfold parse_value pyTry
    simp only [he, hs, Bind.bind, Except.bind, hf]
  · intro err he hcase
    unfold parse_value pyTry
    rcases hcase with ⟨e2, hs⟩ | ⟨s, e3, hs, hf⟩
    · simp only [he, hs, Bind.bind, Except.bind]
    · simp only [he, hs, Bind.bind, Except.bind, hf]

/-- C8 witness: an arbitrary object whose text form is `"2.5"` parses to 2.5
through the second link of the chain. -/
theorem claimC8_value_chain_witness :
    parse_value (.objWithStr "2.5") = .finite (mkRat 5 2) :=
  (claimC8_value_chain (.objWithStr "2.5")).2.1 .typeError "2.5"
    (.finite (mkRat 5 2)) (by decide) (by decide) (by decide)

end Score

namespace Division

open Score (PyErr PFloat)

/-- C9 (amended): `divide` raises `ValueError` exactly when converting
either argument to `Decimal` fails.  Once both convert, the zero test
`den == 0` itself raises `decimal.InvalidOperation` if the denominator is a
signaling NaN (the default context traps it, and the test sits outside the
`try`, so it escapes); otherwise `ZeroDivisionError` is raised exactly when
the denominator equals zero; otherwise the pair goes to the decimal
division, which raises `InvalidOperation` when an operand is a signaling
NaN or both operands are infinities, raises `decimal.Overflow` when the
magnitude of the quotient reaches `10 ^ 1000000` (the `Emax = 999999` bound
of the default context), and in all remaining cases returns the normalized
quotient, raising nothing. -/
theorem claimC9_divide_taxonomy (a b : DNum) :
    (∀ ea, toDecimal a = .error ea → divide a b = .error .valueError) ∧
    (∀ na eb, toDecimal a = .ok na → toDecimal b = .error eb →
      divide a b = .error .valueError) ∧
    (∀ na, toDecimal a = .ok na → toDecimal b = .ok .snan →
      divide a b = .error .invalidOperation) ∧
    (∀ na db, toDecimal a = .ok na → toDecimal b = .ok db →
      decEqZero db = .ok true → divide a b = .error .zeroDivisionError) ∧
    (∀ na db, toDecimal a = .ok na → toDecimal b = .ok db →
      decEqZero db = .ok false → divide a b = decDiv na db) ∧
    (∀ na db : Dec, na = .snan ∨ db = .snan →
      decDiv na db = .error .invalidOperation) ∧
    (∀ na db : Dec, (na = .inf ∨ na = .neginf) → (db = .inf ∨ db = .neginf) →
      decDiv na db = .error .invalidOperation) ∧
    (∀ p q : ℚ, demax ≤ Score.qabs (Score.qdiv p q) →
      decDiv (.finite p) (.finite q) = .error .decimalOverflow) ∧
    (∀ p q : ℚ, Score.qabs (Score.qdiv p q) < demax →
      decDiv (.finite p) (.finite q) = .ok (.finite (Score.qdiv p q))) ∧
    ∀ na db : Dec, na ≠ .snan → db ≠ .snan →
      ¬((na = .inf ∨ na = .neginf) ∧ (db = .inf ∨ db = .neginf)) →
      (∀ p q : ℚ, na = .finite p → db = .finite q →
        Score.qabs (Score.qdiv p q) < demax) →
      ∃ r, decDiv na db = .ok r := by
  refine ⟨?h1, ?h2, ?h3, ?h4, ?h5, ?h6, ?h7, ?h8, ?h9, ?h10⟩
  · intro ea hea
    unfold divide
    rw [hea]
  · intro na eb hna heb
    unfold divide
    rw [hna, heb]
  · intro na hna hb
    unfold divide
    simp [hna, hb, decEqZero]
  · intro na db hna hdb hz
    unfold divide
    simp [hna, hdb, hz]
  · intro na db hna hdb hz
    unfold divide
    simp [hna, hdb, hz]
  · rintro na db (rfl | rfl)
    · cases db <;> rfl
    · cases na <;> rfl
  · rintro na db (rfl | rfl) (rfl | rfl) <;> rfl
  · intro p q h
    simp only [decDiv]
    rw [if_pos h]
  · intro p q h
    simp only [decDiv]
    rw [if_neg (not_le.mpr h)]
  · intro na db h1 h2 h3 h4
    cases na with
    | snan => exact absurd rfl h1
    | nan =>
      cases db with
      | snan => exact absurd rfl h2
      | nan => exact ⟨_, rfl⟩
      | finite q => exact ⟨_, rfl⟩
      | inf => exact ⟨_, rfl⟩
      | neginf => exact ⟨_, rfl⟩
    | inf =>
      cases db with
      | snan => exact absurd rfl h2
      | nan => exact ⟨_, rfl⟩
      | finite q => exact ⟨_, rfl⟩
      | inf => exact absurd ⟨Or.inl rfl, Or.inl rfl⟩ h3
      | neginf => exact absurd ⟨Or.inl rfl, Or.inr rfl⟩ h3
    | neginf =>
      cases db with
      | snan => exact absurd rfl h2
      | nan => exact ⟨_, rfl⟩
      | finite q => exact ⟨_, rfl⟩
      | inf => exact absurd ⟨Or.inr rfl, Or.inl rfl⟩ h3
      | neginf => exact absurd ⟨Or.inr rfl, Or.inr rfl⟩ h3
    | finite p =>
      cases db with
      | snan => exact absurd rfl h2
      | nan => exact ⟨_, rfl⟩
      | inf => exact ⟨_, rfl⟩
      | neginf => exact ⟨_, rfl⟩
      | finite q =>
        refine ⟨.finite (Score.qdiv p q), ?hq⟩
        simp only [decDiv]
        rw [if_neg (not_le.mpr (h4 p q rfl rfl))]

/-- C9 witness: `divide(10, 4)` lands in the quotient case and returns
`Decimal("2.5")`; a signaling-NaN denominator raises `InvalidOperation`
from the zero test; and `divide(10 ^ 2000000, 1)` overflows the default
context. -/
theorem claimC9_divide_taxonomy_witness :
    divide (.int 10) (.int 4) = .ok (.finite (mkRat 5 2)) ∧
    divide (.int 1) (.str "sNaN") = .error .invalidOperation ∧
    divide (.int (((10 ^ 1000 : ℕ) ^ 2000 : ℕ) : ℤ)) (.int 1) =
      .error .decimalOverflow := by
  refine ⟨?h1, ?h2, ?h3⟩
  · rw [(claimC9_divide_taxonomy (.int 10) (.int 4)).2.2.2.2.1 (.finite 10)
      (.finite 4) (by decide) (by decide) (by decide)]
    decide
  · exact (claimC9_divide_taxonomy (.int 1) (.str "sNaN")).2.2.1 (.finite 1)
      (by decide) (by decide)
  · rw [(claimC9_divide_taxonomy (.int (((10 ^ 1000 : ℕ) ^ 2000 : ℕ) : ℤ))
      (.int 1)).2.2.2.2.1
      (.finite ((((10 ^ 1000 : ℕ) ^ 2000 : ℕ) : ℤ) : ℚ)) (.finite 1)
      (by decide) (by decide) (by decide)]
    exact (claimC9_divide_taxonomy (.int (((10 ^ 1000 : ℕ) ^ 2000 : ℕ) : ℤ))
      (.int 1)).2.2.2.2.2.2.2.1
      ((((10 ^ 1000 : ℕ) ^ 2000 : ℕ) : ℤ) : ℚ) 1 (by decide)

/-- C9 counterexample: both arguments `float("inf")` convert to Decimal
infinities and the denominator is nonzero, yet `divide` neither returns a
value nor raises ValueError or ZeroDivisionError: the division raises
`decimal.InvalidOperation`, refuting the claimed exhaustive taxonomy. -/
theorem claimC9_counterexample :
    toDecimal (DNum.float .inf) = .ok Dec.inf ∧
    decEqZero Dec.inf = .ok false ∧
    divide (.float .inf) (.float .inf) = .error .invalidOperation := by
  refine ⟨by decide, by decide, by decide⟩

end Division
